import Mathlib

/-!
Verification of `proxmox/provider.go`: identifier codec, id allocator,
parallelism gate.

A shallow embedding of the functions of `proxmox/provider.go` that carry the
provider's coordination logic:

* `resourceId` / `parseResourceId` (with the regular expression `rxRsId`),
* `nextVmId`,
* `pmParallelBegin` / `pmParallelEnd`,
* the initial state built by `providerConfigure`.

Go strings are modelled by `String` (lists of characters) and Go `int` by `Int`
on a 64-bit platform: `strconv.Atoi` clamps to the range of an `int`, and the
sum `MaxVMID + 1` of `nextVmId` wraps around as Go addition does (`wrapInt`).
The counter `CurrentParallel` is incremented only below `MaxParallel` and
decremented only after an increment, so its sums stay inside the range. A Go call that can abort is modelled by `GoResult`, a Go
call that can suspend the calling goroutine by `Option` (`none`: the caller is
suspended). Each critical section runs under the single mutex, so each call of
`nextVmId`, `pmParallelBegin` and `pmParallelEnd` is one atomic step on the
session state.
-/

namespace Proxmox

/-! ## Go runtime pieces used by the source -/

/-- Errors that flow through `provider.go`. -/
inductive Error where
  /-- Value built by `fmt.Errorf("Invalid resource id: %s", resId)`. -/
  | invalidResourceId (resId : String)
  /-- The `strconv.NumError` with `Err = ErrSyntax`. -/
  | atoiSyntax (num : String)
  /-- The `strconv.NumError` with `Err = ErrRange`. -/
  | atoiRange (num : String)
  /-- Any error reported by the remote API client. -/
  | remote (msg : String)
  deriving DecidableEq

/-- Result of running a Go function: it returns its results, or the goroutine
aborts with a run-time panic. -/
inductive GoResult (α : Type) where
  | returned (a : α)
  | panicked (msg : String)
  deriving DecidableEq

/-- Sequencing of Go statements that may abort. -/
def GoResult.bind {α β : Type} (x : GoResult α) (f : α → GoResult β) : GoResult β :=
  match x with
  | GoResult.returned a => f a
  | GoResult.panicked m => GoResult.panicked m

/-- Slice indexing `xs[i]`: a run-time panic when `i` is out of range (a nil
slice has length 0). -/
def index (xs : List (List Char)) (i : Nat) : GoResult (List Char) :=
  match xs.get? i with
  | some x => GoResult.returned x
  | none => GoResult.panicked "index out of range"

/-- Largest value of a Go `int` on a 64-bit platform. -/
def maxInt : Int := 2 ^ 63 - 1

/-- Smallest value of a Go `int` on a 64-bit platform. -/
def minInt : Int := -(2 ^ 63)

/-- Result of Go arithmetic on `int`: the exact result reduced modulo 2^64 into
the range from `minInt` to `maxInt`. -/
def wrapInt (x : Int) : Int := (x + 2 ^ 63) % 2 ^ 64 - 2 ^ 63

/-- The class `\d` of RE2: the ASCII digits. -/
def isDigit (c : Char) : Bool := decide ('0' ≤ c) && decide (c ≤ '9')

/-- The class `[^/]`. -/
def notSlash (c : Char) : Bool := !(c == '/')

/-- Value of a string of decimal digits, most significant first. -/
def digitsVal (cs : List Char) : Nat :=
  cs.foldl (fun acc c => 10 * acc + (c.toNat - 48)) 0

/-- The function `strconv.Atoi`: optional sign, then decimal digits. A syntax
error yields `0`; a value outside the `int` range yields the nearest bound
together with a range error. -/
def Atoi (s : List Char) : Int × Option Error :=
  let neg := s.head? = some '-'
  let body := if s.head? = some '-' ∨ s.head? = some '+' then s.tail else s
  if body = [] ∨ ¬ body.all isDigit then (0, some (Error.atoiSyntax (String.mk s)))
  else if neg then
    if (2 : Int) ^ 63 < digitsVal body then (minInt, some (Error.atoiRange (String.mk s)))
    else (-(digitsVal body : Int), none)
  else
    if maxInt < digitsVal body then (maxInt, some (Error.atoiRange (String.mk s)))
    else ((digitsVal body : Int), none)

/-- The verb `%d` of `fmt.Sprintf` on an `int`. -/
def fmtInt (i : Int) : List Char :=
  if 0 ≤ i then Nat.toDigits 10 i.toNat else '-' :: Nat.toDigits 10 (-i).toNat

/-! ## The regular expression `rxRsId` -/

/-- Pieces of the pattern: a literal character, or a capturing group holding a
greedy one-or-more repetition of a character class. -/
inductive Piece where
  | lit (c : Char)
  | capPlus (cls : Char → Bool)

/-- Greedy `cls+` followed by the rest of the pattern `k`: characters are
consumed while they are in the class, the longest run is tried first and
shorter runs (at least one character) are tried on failure. `acc` is the text
captured so far. The result is the list of captures and the unread input. -/
def plusGo (cls : Char → Bool) (k : List Char → Option (List (List Char) × List Char)) :
    List Char → List Char → Option (List (List Char) × List Char)
  | _, [] => none
  | acc, x :: xs =>
    if cls x then
      match plusGo cls k (acc ++ [x]) xs with
      | some r => some r
      | none => (k xs).map (fun r => ((acc ++ [x]) :: r.1, r.2))
    else none

/-- Backtracking match of a pattern at the start of the input, preferring the
alternatives in the order of leftmost-first matching. -/
def matchHere : List Piece → List Char → Option (List (List Char) × List Char)
  | [], s => some ([], s)
  | Piece.lit c :: ps, s =>
    match s with
    | [] => none
    | x :: xs => if x = c then matchHere ps xs else none
  | Piece.capPlus cls :: ps, s => plusGo cls (matchHere ps) [] s

/-- The method `(*Regexp).FindStringSubmatch`: the leftmost match; element 0 is
the matched text, the following elements are the captures. No match is the nil
slice. -/
def FindStringSubmatch (re : List Piece) : List Char → List (List Char)
  | [] =>
    match matchHere re [] with
    | some r => [] :: r.1
    | none => []
  | x :: xs =>
    match matchHere re (x :: xs) with
    | some r => (x :: xs).take ((x :: xs).length - r.2.length) :: r.1
    | none => FindStringSubmatch re xs

/-- The pattern `([^/]+)/([^/]+)/(\d+)`. -/
def rxRsId : List Piece :=
  [Piece.capPlus notSlash, Piece.lit '/', Piece.capPlus notSlash, Piece.lit '/',
   Piece.capPlus isDigit]

/-! ## Identifier codec -/

/-- The function `resourceId`: `fmt.Sprintf("%s/%s/%d", targetNode, resType, vmId)`. -/
def resourceId (targetNode resType : String) (vmId : Int) : String :=
  String.mk (targetNode.data ++ '/' :: (resType.data ++ '/' :: fmtInt vmId))

/-- The function `parseResourceId`. The results are
`(targetNode, resType, vmId, err)`. When there is no match `err` is assigned
and execution continues with `idMatch[1]`. -/
def parseResourceId (resId : String) : GoResult (String × String × Int × Option Error) :=
  let idMatch := FindStringSubmatch rxRsId resId.data
  let _err : Option Error :=
    if idMatch = [] then some (Error.invalidResourceId resId) else none
  (index idMatch 1).bind fun targetNode =>
  (index idMatch 2).bind fun resType =>
  (index idMatch 3).bind fun num =>
  GoResult.returned (String.mk targetNode, String.mk resType, (Atoi num).1, (Atoi num).2)

/-! ## Session state -/

/-- The struct `providerConfiguration`. `Client` holds the state of the remote
API behind the client handle; `Mutex` is `true` while the mutex is held. The
condition variable `Cond` carries no data of its own: a goroutine waiting on
it is a suspended caller. -/
structure providerConfiguration (σ : Type) where
  Client : σ
  MaxParallel : Int
  CurrentParallel : Int
  MaxVMID : Int
  Mutex : Bool
  deriving DecidableEq

/-- The function `providerConfigure`; `login` is the outcome of `getClient` and
`pm_parallel` the configured value of `d.Get("pm_parallel")`. -/
def providerConfigure {σ : Type} (login : Except Error σ) (pm_parallel : Int) :
    Except Error (providerConfiguration σ) :=
  match login with
  | Except.error err => Except.error err
  | Except.ok client =>
    Except.ok
      { Client := client
        MaxParallel := pm_parallel
        CurrentParallel := 0
        MaxVMID := -1
        Mutex := false }

/-- The state `providerConfigure` returns after a successful login. -/
def configured {σ : Type} (client : σ) (pm_parallel : Int) : providerConfiguration σ :=
  { Client := client
    MaxParallel := pm_parallel
    CurrentParallel := 0
    MaxVMID := -1
    Mutex := false }

/-! ## Id allocator -/

/-- The function `nextVmId`. `GetNextID` is the remote query: from the state of
the remote and the floor it yields the reply `(id, err)` and the next state of
the remote. The floor `pconf.MaxVMID + 1` is a Go `int` sum and wraps. `none`:
the caller is suspended in `Mutex.Lock()`. Otherwise the results are the session
state after the call and `(nextId, err)`. -/
def nextVmId {σ : Type} (GetNextID : σ → Int → (Int × Option Error) × σ)
    (pconf : providerConfiguration σ) :
    Option (providerConfiguration σ × Int × Option Error) :=
  if pconf.Mutex then none
  else
    let locked := { pconf with Mutex := true }
    let reply := GetNextID locked.Client (wrapInt (locked.MaxVMID + 1))
    let assigned := { locked with Client := reply.2, MaxVMID := reply.1.1 }
    match reply.1.2 with
    | some err => some (assigned, 0, some err)
    | none => some ({ assigned with Mutex := false }, assigned.MaxVMID, none)

/-- Ids returned by the successful calls among `n` consecutive calls of
`nextVmId` on one session state. A suspended call leaves the state as it is. -/
def allocRun {σ : Type} (GetNextID : σ → Int → (Int × Option Error) × σ) :
    Nat → providerConfiguration σ → List Int
  | 0, _ => []
  | n + 1, pconf =>
    match nextVmId GetNextID pconf with
    | none => allocRun GetNextID n pconf
    | some (pconf', nextId, none) => nextId :: allocRun GetNextID n pconf'
    | some (pconf', _, some _) => allocRun GetNextID n pconf'

/-- A remote that answers `reply floor` and records every floor it is asked. -/
def recorder (reply : Int → Int × Option Error) :
    List Int → Int → (Int × Option Error) × List Int :=
  fun log floor => (reply floor, log ++ [floor])

/-! ## Parallelism gate -/

/-- The function `pmParallelBegin`, as one atomic step. `none`: the caller is
suspended, in `Mutex.Lock()` or in `Cond.Wait()` (which releases the mutex), and
the state is as before. -/
def pmParallelBegin {σ : Type} (pconf : providerConfiguration σ) :
    Option (providerConfiguration σ) :=
  if pconf.Mutex then none
  else if pconf.CurrentParallel ≥ pconf.MaxParallel then none
  else some { pconf with CurrentParallel := pconf.CurrentParallel + 1 }

/-- The function `pmParallelEnd`, as one atomic step. `none`: the caller is
suspended in `Mutex.Lock()`. -/
def pmParallelEnd {σ : Type} (pconf : providerConfiguration σ) :
    Option (providerConfiguration σ) :=
  if pconf.Mutex then none
  else some { pconf with CurrentParallel := pconf.CurrentParallel - 1 }

/-- A completed call of one of the two gate functions. -/
inductive GateOp where
  | parallelBegin
  | parallelEnd
  deriving DecidableEq

/-- One gate step. -/
def gateStep {σ : Type} (pconf : providerConfiguration σ) : GateOp → Option (providerConfiguration σ)
  | GateOp.parallelBegin => pmParallelBegin pconf
  | GateOp.parallelEnd => pmParallelEnd pconf

/-- Runs an interleaving of completed gate calls; `none` when a call of the
sequence cannot complete in the state it meets. -/
def runGate {σ : Type} : providerConfiguration σ → List GateOp → Option (providerConfiguration σ)
  | pconf, [] => some pconf
  | pconf, op :: ops =>
    match gateStep pconf op with
    | none => none
    | some pconf' => runGate pconf' ops

/-- Every `parallelEnd` of the sequence is preceded by its own `parallelBegin`;
`pending` counts the begins not yet ended. -/
def matched : Nat → List GateOp → Bool
  | _, [] => true
  | pending, GateOp.parallelBegin :: ops => matched (pending + 1) ops
  | 0, GateOp.parallelEnd :: _ => false
  | pending + 1, GateOp.parallelEnd :: ops => matched pending ops

/-! ## Decimal digits -/

theorem digitChar_isDigit (k : Nat) (hk : k < 10) : isDigit (Nat.digitChar k) = true := by
  interval_cases k <;> decide

theorem digitChar_val (k : Nat) (hk : k < 10) : (Nat.digitChar k).toNat - 48 = k := by
  interval_cases k <;> decide

theorem toDigitsCore_all (fuel : Nat) :
    ∀ (n : Nat) (ds : List Char), (∀ c ∈ ds, isDigit c = true) →
      ∀ c ∈ Nat.toDigitsCore 10 fuel n ds, isDigit c = true := by
  induction fuel with
  | zero => intro n ds hds; simpa [Nat.toDigitsCore] using hds
  | succ fuel ih =>
    intro n ds hds
    have hd : isDigit (Nat.digitChar (n % 10)) = true :=
      digitChar_isDigit _ (Nat.mod_lt _ (by decide))
    have hcons : ∀ c ∈ Nat.digitChar (n % 10) :: ds, isDigit c = true := by
      intro c hc
      rcases List.mem_cons.mp hc with h | h
      · exact h ▸ hd
      · exact hds c h
    unfold Nat.toDigitsCore
    by_cases h0 : n / 10 = 0
    · simpa [h0] using hcons
    · simpa [h0] using ih (n / 10) _ hcons

theorem toDigitsCore_val (fuel : Nat) :
    ∀ (n : Nat) (ds : List Char), n < fuel →
      digitsVal (Nat.toDigitsCore 10 fuel n ds)
        = ds.foldl (fun acc c => 10 * acc + (c.toNat - 48)) n := by
  induction fuel with
  | zero => intro n ds h; omega
  | succ fuel ih =>
    intro n ds hlt
    unfold Nat.toDigitsCore
    have hv := digitChar_val (n % 10) (Nat.mod_lt _ (by decide))
    by_cases h0 : n / 10 = 0
    · have hn : n % 10 = n := by omega
      rw [hn] at hv
      simp [h0, digitsVal, List.foldl_cons, hn, hv]
    · have hlt2 : n / 10 < fuel := by omega
      have hrec := ih (n / 10) (Nat.digitChar (n % 10) :: ds) hlt2
      have hn : 10 * (n / 10) + n % 10 = n := Nat.div_add_mod n 10
      simp only [h0, if_false]
      rw [hrec, List.foldl_cons, hv, hn]

theorem toDigitsCore_ne_nil (fuel n : Nat) (ds : List Char) (hf : 0 < fuel) :
    Nat.toDigitsCore 10 fuel n ds ≠ [] := by
  induction fuel generalizing n ds with
  | zero => omega
  | succ fuel ih =>
    unfold Nat.toDigitsCore
    by_cases h0 : n / 10 = 0
    · simp [h0]
    · simp only [h0, if_false]
      cases fuel with
      | zero => simp [Nat.toDigitsCore]
      | succ f => exact ih _ _ (Nat.succ_pos f)

theorem toDigits_all (n : Nat) : ∀ c ∈ Nat.toDigits 10 n, isDigit c = true :=
  toDigitsCore_all (n + 1) n [] (by simp)

theorem toDigits_val (n : Nat) : digitsVal (Nat.toDigits 10 n) = n := by
  have h := toDigitsCore_val (n + 1) n [] (Nat.lt_succ_self n)
  simpa [Nat.toDigits] using h

theorem toDigits_ne_nil (n : Nat) : Nat.toDigits 10 n ≠ [] :=
  toDigitsCore_ne_nil (n + 1) n [] (Nat.succ_pos n)

/-! ## The matcher on `rxRsId` -/

theorem plusGo_stop (cls : Char → Bool) (k : List Char → Option (List (List Char) × List Char))
    (acc s : List Char) (hstop : ∀ c, s.head? = some c → cls c = false) :
    plusGo cls k acc s = none := by
  cases s with
  | nil => rfl
  | cons x xs =>
    have hx : cls x = false := hstop x rfl
    simp [plusGo, hx]

theorem plusGo_run (cls : Char → Bool) (k : List Char → Option (List (List Char) × List Char))
    (s' : List Char) (hstop : ∀ c, s'.head? = some c → cls c = false)
    (out : List (List Char) × List Char) (hk : k s' = some out) :
    ∀ (r : List Char), r ≠ [] → (∀ c ∈ r, cls c = true) → ∀ acc : List Char,
      plusGo cls k acc (r ++ s') = some ((acc ++ r) :: out.1, out.2) := by
  intro r
  induction r with
  | nil => intro h; exact absurd rfl h
  | cons x r ih =>
    intro _ hall acc
    have hx : cls x = true := hall x (List.mem_cons_self x r)
    cases r with
    | nil =>
      have hnone := plusGo_stop cls k (acc ++ [x]) s' hstop
      simp [plusGo, hx, hnone, hk]
    | cons y r' =>
      have hrec := ih (by simp) (fun c hc => hall c (List.mem_cons_of_mem x hc)) (acc ++ [x])
      have happ : (x :: y :: r') ++ s' = x :: ((y :: r') ++ s') := rfl
      rw [happ, plusGo, if_pos hx, hrec]
      simp

theorem plusGo_sound (cls : Char → Bool) (k : List Char → Option (List (List Char) × List Char)) :
    ∀ (s acc : List Char) (out : List (List Char) × List Char),
      plusGo cls k acc s = some out →
      ∃ r s' caps, r ≠ [] ∧ (∀ c ∈ r, cls c = true) ∧ s = r ++ s' ∧
        k s' = some (caps, out.2) ∧ out.1 = (acc ++ r) :: caps := by
  intro s
  induction s with
  | nil => intro acc out h; simp [plusGo] at h
  | cons x xs ih =>
    intro acc out h
    by_cases hx : cls x = true
    · rw [plusGo, if_pos hx] at h
      cases hrec : plusGo cls k (acc ++ [x]) xs with
      | some r' =>
        rw [hrec] at h
        have hout : r' = out := by simpa using h
        subst hout
        obtain ⟨r, s', caps, hr, hall, hxs, hk, hcap⟩ := ih (acc ++ [x]) r' hrec
        refine ⟨x :: r, s', caps, by simp, ?_, by simp [hxs], hk, by simp [hcap]⟩
        intro c hc
        rcases List.mem_cons.mp hc with h1 | h1
        · exact h1 ▸ hx
        · exact hall c h1
      | none =>
        rw [hrec] at h
        cases hk : k xs with
        | none => simp [hk] at h
        | some o =>
          simp only [hk, Option.map_some', Option.some.injEq] at h
          subst h
          exact ⟨[x], xs, o.1, by simp, by simpa using hx, rfl, by simp [hk], rfl⟩
    · have hx' : cls x = false := by simpa using hx
      simp [plusGo, hx'] at h

theorem matchHere_rxRsId_run (n k d post : List Char)
    (hn : n ≠ []) (hnall : ∀ c ∈ n, notSlash c = true)
    (hk : k ≠ []) (hkall : ∀ c ∈ k, notSlash c = true)
    (hd : d ≠ []) (hdall : ∀ c ∈ d, isDigit c = true)
    (hpost : ∀ c, post.head? = some c → isDigit c = false) :
    matchHere rxRsId (n ++ '/' :: (k ++ '/' :: (d ++ post))) = some ([n, k, d], post) := by
  have hslash : ∀ (t : List Char) (c : Char), ('/' :: t).head? = some c → notSlash c = false := by
    intro t c hc
    simp only [List.head?_cons, Option.some.injEq] at hc
    subst hc
    decide
  have h3 : matchHere [Piece.capPlus isDigit] (d ++ post) = some ([d], post) := by
    have := plusGo_run isDigit (matchHere []) post hpost ([], post) rfl d hd hdall []
    simpa [matchHere] using this
  have h3' : matchHere [Piece.lit '/', Piece.capPlus isDigit] ('/' :: (d ++ post))
      = some ([d], post) := by
    simpa [matchHere] using h3
  have h2 : matchHere [Piece.capPlus notSlash, Piece.lit '/', Piece.capPlus isDigit]
      (k ++ '/' :: (d ++ post)) = some ([k, d], post) := by
    have := plusGo_run notSlash (matchHere [Piece.lit '/', Piece.capPlus isDigit])
      ('/' :: (d ++ post)) (hslash _) ([d], post) h3' k hk hkall []
    simpa [matchHere] using this
  have h2' : matchHere [Piece.lit '/', Piece.capPlus notSlash, Piece.lit '/', Piece.capPlus isDigit]
      ('/' :: (k ++ '/' :: (d ++ post))) = some ([k, d], post) := by
    simpa [matchHere] using h2
  have := plusGo_run notSlash
    (matchHere [Piece.lit '/', Piece.capPlus notSlash, Piece.lit '/', Piece.capPlus isDigit])
    ('/' :: (k ++ '/' :: (d ++ post))) (hslash _) ([k, d], post) h2' n hn hnall []
  simpa [matchHere, rxRsId] using this

theorem matchHere_lit_sound (c : Char) (ps : List Piece) (s : List Char)
    (out : List (List Char) × List Char) (h : matchHere (Piece.lit c :: ps) s = some out) :
    ∃ t, s = c :: t ∧ matchHere ps t = some out := by
  cases s with
  | nil => simp [matchHere] at h
  | cons x xs =>
    by_cases hx : x = c
    · subst hx
      exact ⟨xs, rfl, by simpa [matchHere] using h⟩
    · simp [matchHere, hx] at h

theorem matchHere_rxRsId_sound (s : List Char) (out : List (List Char) × List Char)
    (h : matchHere rxRsId s = some out) :
    ∃ n k d, out.1 = [n, k, d] ∧ s = n ++ '/' :: (k ++ '/' :: (d ++ out.2)) ∧
      n ≠ [] ∧ (∀ c ∈ n, notSlash c = true) ∧ k ≠ [] ∧ (∀ c ∈ k, notSlash c = true) ∧
      d ≠ [] ∧ (∀ c ∈ d, isDigit c = true) := by
  have h1 : plusGo notSlash
      (matchHere [Piece.lit '/', Piece.capPlus notSlash, Piece.lit '/', Piece.capPlus isDigit])
      [] s = some out := by
    simpa [matchHere, rxRsId] using h
  obtain ⟨n, s1, caps1, hn, hnall, hs, hk1, hc1⟩ := plusGo_sound _ _ s [] out h1
  obtain ⟨t1, ht1, hm1⟩ := matchHere_lit_sound _ _ _ _ hk1
  have h2 : plusGo notSlash (matchHere [Piece.lit '/', Piece.capPlus isDigit]) [] t1
      = some (caps1, out.2) := by
    simpa [matchHere] using hm1
  obtain ⟨k, s2, caps2, hk, hkall, hs2, hk2, hc2⟩ := plusGo_sound _ _ t1 [] _ h2
  obtain ⟨t2, ht2, hm2⟩ := matchHere_lit_sound _ _ _ _ hk2
  have h3 : plusGo isDigit (matchHere []) [] t2 = some (caps2, out.2) := by
    simpa [matchHere] using hm2
  obtain ⟨d, s3, caps3, hd, hdall, hs3, hk3, hc3⟩ := plusGo_sound _ _ t2 [] _ h3
  have hk3' : caps3 = [] ∧ out.2 = s3 := by simpa [matchHere] using hk3.symm
  obtain ⟨hcaps3, hs3'⟩ := hk3'
  refine ⟨n, k, d, ?_, ?_, hn, hnall, hk, hkall, hd, hdall⟩
  · simp only [List.nil_append] at hc1 hc2 hc3
    rw [hc1, hc2, hc3, hcaps3]
  · rw [hs, ht1, hs2, ht2, hs3, ← hs3']

theorem FindStringSubmatch_of_match (re : List Piece) (s : List Char) (hs : s ≠ [])
    (r : List (List Char) × List Char) (h : matchHere re s = some r) :
    FindStringSubmatch re s = s.take (s.length - r.2.length) :: r.1 := by
  cases s with
  | nil => exact absurd rfl hs
  | cons x xs => simp [FindStringSubmatch, h]

theorem FindStringSubmatch_rxRsId_sound (s : List Char) :
    FindStringSubmatch rxRsId s = [] ∨
    ∃ pre whole n k d post, FindStringSubmatch rxRsId s = [whole, n, k, d] ∧
      s = pre ++ (n ++ '/' :: (k ++ '/' :: (d ++ post))) ∧
      n ≠ [] ∧ (∀ c ∈ n, notSlash c = true) ∧ k ≠ [] ∧ (∀ c ∈ k, notSlash c = true) ∧
      d ≠ [] ∧ (∀ c ∈ d, isDigit c = true) := by
  induction s with
  | nil =>
    left
    have h : matchHere rxRsId [] = none := by simp [matchHere, rxRsId, plusGo]
    simp [FindStringSubmatch, h]
  | cons x xs ih =>
    cases hm : matchHere rxRsId (x :: xs) with
    | some out =>
      right
      obtain ⟨n, k, d, hcaps, hs, hrest⟩ := matchHere_rxRsId_sound _ _ hm
      refine ⟨[], (x :: xs).take ((x :: xs).length - out.2.length), n, k, d, out.2, ?_,
        by simpa using hs, hrest⟩
      rw [FindStringSubmatch_of_match _ _ (by simp) out hm, hcaps]
    | none =>
      have hstep : FindStringSubmatch rxRsId (x :: xs) = FindStringSubmatch rxRsId xs := by
        simp [FindStringSubmatch, hm]
      rcases ih with h | ⟨pre, whole, n, k, d, post, hf, hs, hrest⟩
      · left; rw [hstep, h]
      · right
        exact ⟨x :: pre, whole, n, k, d, post, by rw [hstep, hf], by simp [hs], hrest⟩

/-! ## `strconv.Atoi` on digit strings -/

theorem Atoi_digits (d : List Char) (hd : d ≠ []) (hall : ∀ c ∈ d, isDigit c = true) :
    Atoi d = if maxInt < (digitsVal d : Int)
      then (maxInt, some (Error.atoiRange (String.mk d)))
      else ((digitsVal d : Int), none) := by
  cases d with
  | nil => exact absurd rfl hd
  | cons x xs =>
    have hx : isDigit x = true := hall x (List.mem_cons_self x xs)
    have hminus : x ≠ '-' := by
      intro h; rw [h] at hx; exact absurd hx (by decide)
    have hplus : x ≠ '+' := by
      intro h; rw [h] at hx; exact absurd hx (by decide)
    have hall' : (x :: xs).all isDigit = true := List.all_eq_true.mpr hall
    simp [Atoi, hminus, hplus, hall']

/-! ## `parseResourceId` by cases on the match -/

theorem parseResourceId_of_no_match (resId : String)
    (h : FindStringSubmatch rxRsId resId.data = []) :
    parseResourceId resId = GoResult.panicked "index out of range" := by
  simp [parseResourceId, h, index, GoResult.bind]

theorem parseResourceId_of_match (resId : String) (whole n k d : List Char)
    (h : FindStringSubmatch rxRsId resId.data = [whole, n, k, d]) :
    parseResourceId resId
      = GoResult.returned (String.mk n, String.mk k, (Atoi d).1, (Atoi d).2) := by
  simp [parseResourceId, h, index, GoResult.bind]

theorem notSlash_of_not_mem (cs : List Char) (h : '/' ∉ cs) : ∀ c ∈ cs, notSlash c = true := by
  intro c hc
  have hne : c ≠ '/' := fun e => h (e ▸ hc)
  simp [notSlash, hne]

/-! ## Claims on the identifier codec -/

/-- C1 (as amended): for every non-empty node and kind without '/' and every id
with 0 ≤ id ≤ maxInt (the non-negative values of an int), decoding the encoded
locator returns (node, kind, id) with a nil error. -/
theorem parseResourceId_resourceId (node kind : String) (id : Int)
    (hnode : node.data ≠ []) (hnodeSlash : '/' ∉ node.data)
    (hkind : kind.data ≠ []) (hkindSlash : '/' ∉ kind.data)
    (hid : 0 ≤ id) (hmax : id ≤ maxInt) :
    parseResourceId (resourceId node kind id) = GoResult.returned (node, kind, id, none) := by
  have hfmt : fmtInt id = Nat.toDigits 10 id.toNat := by simp [fmtInt, hid]
  have hm := matchHere_rxRsId_run node.data kind.data (Nat.toDigits 10 id.toNat) []
    hnode (notSlash_of_not_mem _ hnodeSlash) hkind (notSlash_of_not_mem _ hkindSlash)
    (toDigits_ne_nil _) (toDigits_all _) (by simp)
  have hdata : (resourceId node kind id).data
      = node.data ++ '/' :: (kind.data ++ '/' :: (Nat.toDigits 10 id.toNat ++ [])) := by
    simp [resourceId, hfmt]
  have hne : (resourceId node kind id).data ≠ [] := by
    rw [hdata]
    cases hnd : node.data with
    | nil => exact absurd hnd hnode
    | cons x xs => simp
  have hfind := FindStringSubmatch_of_match rxRsId (resourceId node kind id).data hne
    ([node.data, kind.data, Nat.toDigits 10 id.toNat], []) (by rw [hdata]; exact hm)
  have hparse := parseResourceId_of_match _ _ _ _ _ hfind
  have hval : ((digitsVal (Nat.toDigits 10 id.toNat) : Nat) : Int) = id := by
    rw [toDigits_val]; exact Int.toNat_of_nonneg hid
  have hatoi := Atoi_digits (Nat.toDigits 10 id.toNat) (toDigits_ne_nil _) (toDigits_all _)
  rw [hval, if_neg (not_lt.mpr hmax)] at hatoi
  rw [hparse, hatoi]

/-- C1, witness: "nodeA", "qemu", 100 encodes to "nodeA/qemu/100" and decodes
back. -/
theorem parseResourceId_resourceId_witness :
    resourceId "nodeA" "qemu" 100 = "nodeA/qemu/100" ∧
    parseResourceId (resourceId "nodeA" "qemu" 100)
      = GoResult.returned ("nodeA", "qemu", 100, none) :=
  ⟨by decide,
   parseResourceId_resourceId "nodeA" "qemu" 100 (by decide) (by decide) (by decide) (by decide)
     (by decide) (by decide)⟩

/-- C1, counterexample: the empty node contains no '/', yet the encoding of
("", "qemu", 100) is "/qemu/100", which the decoder does not map back to
("", "qemu", 100): the call aborts. -/
theorem resourceId_empty_node_not_roundtrip :
    '/' ∉ ("" : String).data ∧ '/' ∉ ("qemu" : String).data ∧ (0 : Int) ≤ 100 ∧
    resourceId "" "qemu" 100 = "/qemu/100" ∧
    parseResourceId (resourceId "" "qemu" 100) ≠ GoResult.returned ("", "qemu", 100, none) ∧
    parseResourceId (resourceId "" "qemu" 100) = GoResult.panicked "index out of range" := by
  decide

/-- C2 (code defect): on "nodeA/qemu" and on "nodeA/qemu/abc" the pattern does
not occur, and `parseResourceId` aborts with an index-out-of-range panic instead
of returning an error to its caller. -/
theorem parseResourceId_rejects_by_panic :
    FindStringSubmatch rxRsId ("nodeA/qemu" : String).data = [] ∧
    parseResourceId "nodeA/qemu" = GoResult.panicked "index out of range" ∧
    FindStringSubmatch rxRsId ("nodeA/qemu/abc" : String).data = [] ∧
    parseResourceId "nodeA/qemu/abc" = GoResult.panicked "index out of range" := by
  decide

/-- C3 (as amended): whenever `parseResourceId` returns with a nil error, the
input contains, possibly with text before and after, a non-empty '/'-free
segment, '/', a non-empty '/'-free segment, '/' and a non-empty run of decimal
digits; the node and kind returned are the two segments and the id is the value
of the digits. -/
theorem parseResourceId_ok_shape (resId node kind : String) (id : Int)
    (h : parseResourceId resId = GoResult.returned (node, kind, id, none)) :
    ∃ pre d post, resId.data = pre ++ (node.data ++ '/' :: (kind.data ++ '/' :: (d ++ post))) ∧
      node.data ≠ [] ∧ '/' ∉ node.data ∧ kind.data ≠ [] ∧ '/' ∉ kind.data ∧
      d ≠ [] ∧ (∀ c ∈ d, isDigit c = true) ∧ id = (digitsVal d : Int) := by
  rcases FindStringSubmatch_rxRsId_sound resId.data with
    hno | ⟨pre, whole, n, k, d, post, hf, hs, hn, hnall, hk, hkall, hd, hdall⟩
  · rw [parseResourceId_of_no_match _ hno] at h
    exact absurd h (by simp)
  · rw [parseResourceId_of_match _ _ _ _ _ hf, Atoi_digits d hd hdall] at h
    have hslash : ∀ cs : List Char, (∀ c ∈ cs, notSlash c = true) → '/' ∉ cs := by
      intro cs hall hmem
      exact absurd (hall _ hmem) (by decide)
    by_cases hrange : maxInt < (digitsVal d : Int)
    · rw [if_pos hrange] at h
      simp at h
    · rw [if_neg hrange] at h
      simp only [GoResult.returned.injEq, Prod.mk.injEq, and_true] at h
      obtain ⟨h1, h2, h3⟩ := h
      subst h1 h2
      exact ⟨pre, d, post, hs, hn, hslash _ hnall, hk, hslash _ hkall, hd, hdall, h3.symm⟩

/-- C3, witness: "nodeA/qemu/100abc" decodes to ("nodeA", "qemu", 100), and the
input has the stated shape around that occurrence. -/
theorem parseResourceId_ok_shape_witness :
    ∃ pre d post, ("nodeA/qemu/100abc" : String).data
        = pre ++ (("nodeA" : String).data ++ '/' :: (("qemu" : String).data ++ '/' :: (d ++ post))) ∧
      ("nodeA" : String).data ≠ [] ∧ '/' ∉ ("nodeA" : String).data ∧
      ("qemu" : String).data ≠ [] ∧ '/' ∉ ("qemu" : String).data ∧
      d ≠ [] ∧ (∀ c ∈ d, isDigit c = true) ∧ (100 : Int) = (digitsVal d : Int) :=
  parseResourceId_ok_shape "nodeA/qemu/100abc" "nodeA" "qemu" 100 (by decide)

/-- C3, counterexample: "x/nodeA/qemu/100" has four segments and
"nodeA/qemu/100abc" has text after the digits, and both are decoded to
("nodeA", "qemu", 100) with a nil error. -/
theorem parseResourceId_accepts_inexact_shape :
    parseResourceId "x/nodeA/qemu/100" = GoResult.returned ("nodeA", "qemu", 100, none) ∧
    parseResourceId "nodeA/qemu/100abc" = GoResult.returned ("nodeA", "qemu", 100, none) ∧
    ("x/nodeA/qemu/100" : String) ≠ resourceId "nodeA" "qemu" 100 ∧
    ("nodeA/qemu/100abc" : String) ≠ resourceId "nodeA" "qemu" 100 := by
  decide

/-- C10 (as amended): on an input in which the pattern occurs, whenever
`parseResourceId` returns a non-nil error, the error is the range error of
`strconv.Atoi` on a matched digit string whose value exceeds maxInt, the node
and kind returned are the matched non-empty segments and the id returned is
maxInt. -/
theorem parseResourceId_err_results (resId node kind : String) (id : Int) (err : Error)
    (hmatch : FindStringSubmatch rxRsId resId.data ≠ [])
    (h : parseResourceId resId = GoResult.returned (node, kind, id, some err)) :
    node.data ≠ [] ∧ kind.data ≠ [] ∧ id = maxInt ∧
    ∃ pre d post, resId.data = pre ++ (node.data ++ '/' :: (kind.data ++ '/' :: (d ++ post))) ∧
      (∀ c ∈ d, isDigit c = true) ∧ maxInt < (digitsVal d : Int) ∧
      err = Error.atoiRange (String.mk d) := by
  rcases FindStringSubmatch_rxRsId_sound resId.data with
    hno | ⟨pre, whole, n, k, d, post, hf, hs, hn, hnall, hk, hkall, hd, hdall⟩
  · exact absurd hno hmatch
  · rw [parseResourceId_of_match _ _ _ _ _ hf, Atoi_digits d hd hdall] at h
    by_cases hrange : maxInt < (digitsVal d : Int)
    · rw [if_pos hrange] at h
      simp only [GoResult.returned.injEq, Prod.mk.injEq, Option.some.injEq] at h
      obtain ⟨h1, h2, h3, h4⟩ := h
      subst h1 h2
      exact ⟨hn, hk, h3.symm, pre, d, post, hs, hdall, hrange, h4.symm⟩
    · rw [if_neg hrange] at h
      simp at h

/-- C10, witness: "nodeA/qemu/99999999999999999999" returns a range error
together with "nodeA", "qemu" and maxInt. -/
theorem parseResourceId_err_results_witness :
    FindStringSubmatch rxRsId ("nodeA/qemu/99999999999999999999" : String).data ≠ [] ∧
    parseResourceId "nodeA/qemu/99999999999999999999"
      = GoResult.returned ("nodeA", "qemu", 9223372036854775807,
          some (Error.atoiRange "99999999999999999999")) ∧
    ("nodeA" : String).data ≠ [] ∧ ("qemu" : String).data ≠ [] ∧
    (9223372036854775807 : Int) = maxInt ∧
    ∃ pre d post, ("nodeA/qemu/99999999999999999999" : String).data
        = pre ++ (("nodeA" : String).data ++ '/' :: (("qemu" : String).data ++ '/' :: (d ++ post))) ∧
      (∀ c ∈ d, isDigit c = true) ∧ maxInt < (digitsVal d : Int) ∧
      Error.atoiRange "99999999999999999999" = Error.atoiRange (String.mk d) :=
  ⟨by decide, by decide,
   parseResourceId_err_results "nodeA/qemu/99999999999999999999" "nodeA" "qemu"
     9223372036854775807 (Error.atoiRange "99999999999999999999") (by decide) (by decide)⟩

/-- C10, counterexample: on "nodeA/qemu/99999999999999999999" the error is
non-nil while node, kind and id are "nodeA", "qemu" and 9223372036854775807. -/
theorem parseResourceId_err_keeps_results :
    parseResourceId "nodeA/qemu/99999999999999999999"
      = GoResult.returned ("nodeA", "qemu", 9223372036854775807,
          some (Error.atoiRange "99999999999999999999")) ∧
    ("nodeA" : String) ≠ "" ∧ ("qemu" : String) ≠ "" ∧ (9223372036854775807 : Int) ≠ 0 := by
  decide

/-! ## The allocator -/

theorem wrapInt_of_range (x : Int) (hlo : minInt ≤ x) (hhi : x ≤ maxInt) : wrapInt x = x := by
  simp only [wrapInt, minInt, maxInt] at *
  omega

theorem minInt_le_wrapInt (x : Int) : minInt ≤ wrapInt x := by
  simp only [wrapInt, minInt]
  omega

theorem allocRun_locked {σ : Type} (G : σ → Int → (Int × Option Error) × σ) :
    ∀ (n : Nat) (p : providerConfiguration σ), p.Mutex = true → allocRun G n p = [] := by
  intro n
  induction n with
  | zero => intro p _; rfl
  | succ n ih =>
    intro p hp
    have hnone : nextVmId G p = none := by simp [nextVmId, hp]
    simp only [allocRun, hnone]
    exact ih p hp

theorem nextVmId_ok {σ : Type} (G : σ → Int → (Int × Option Error) × σ)
    (p : providerConfiguration σ) (hfree : p.Mutex = false)
    (hok : (G p.Client (wrapInt (p.MaxVMID + 1))).1.2 = none) :
    nextVmId G p = some ({ p with Client := (G p.Client (wrapInt (p.MaxVMID + 1))).2,
                                  MaxVMID := (G p.Client (wrapInt (p.MaxVMID + 1))).1.1 },
      (G p.Client (wrapInt (p.MaxVMID + 1))).1.1, none) := by
  cases p with
  | mk c mp cp m mu =>
    simp only at hfree hok
    subst hfree
    simp [nextVmId, hok]

theorem nextVmId_err {σ : Type} (G : σ → Int → (Int × Option Error) × σ)
    (p : providerConfiguration σ) (hfree : p.Mutex = false) (err : Error)
    (herr : (G p.Client (wrapInt (p.MaxVMID + 1))).1.2 = some err) :
    nextVmId G p = some ({ p with Client := (G p.Client (wrapInt (p.MaxVMID + 1))).2,
                                  MaxVMID := (G p.Client (wrapInt (p.MaxVMID + 1))).1.1,
                                  Mutex := true }, 0, some err) := by
  cases p with
  | mk c mp cp m mu =>
    simp only at hfree herr
    subst hfree
    simp [nextVmId, herr]

theorem allocRun_gt {σ : Type} (G : σ → Int → (Int × Option Error) × σ)
    (hG : ∀ c floor, (G c floor).1.2 = none →
      floor ≤ (G c floor).1.1 ∧ (G c floor).1.1 < maxInt) :
    ∀ (n : Nat) (p : providerConfiguration σ), minInt ≤ p.MaxVMID → p.MaxVMID < maxInt →
      ∀ id ∈ allocRun G n p, p.MaxVMID < id := by
  intro n
  induction n with
  | zero => intro p _ _ id h; simp [allocRun] at h
  | succ n ih =>
    intro p hlo hhi id h
    cases hmu : p.Mutex with
    | true => rw [allocRun_locked G _ p hmu] at h; simp at h
    | false =>
      have hfl : wrapInt (p.MaxVMID + 1) = p.MaxVMID + 1 :=
        wrapInt_of_range _ (by omega) (by omega)
      cases hrep : (G p.Client (wrapInt (p.MaxVMID + 1))).1.2 with
      | some err =>
        rw [allocRun, nextVmId_err G p hmu err hrep] at h
        simp only at h
        rw [allocRun_locked G n _ rfl] at h
        simp at h
      | none =>
        have hfloor := hG _ _ hrep
        rw [hfl] at hfloor
        rw [allocRun, nextVmId_ok G p hmu hrep] at h
        simp only at h
        rw [hfl] at h
        rcases List.mem_cons.mp h with h1 | h1
        · rw [h1]; omega
        · have := ih _ (by simp only; omega) (by simp only; exact hfloor.2) id h1
          simp only at this
          omega

theorem allocRun_pairwise {σ : Type} (G : σ → Int → (Int × Option Error) × σ)
    (hG : ∀ c floor, (G c floor).1.2 = none →
      floor ≤ (G c floor).1.1 ∧ (G c floor).1.1 < maxInt) :
    ∀ (n : Nat) (p : providerConfiguration σ), List.Pairwise (· < ·) (allocRun G n p) := by
  intro n
  induction n with
  | zero => intro p; simp [allocRun]
  | succ n ih =>
    intro p
    cases hmu : p.Mutex with
    | true => rw [allocRun_locked G _ p hmu]; exact List.Pairwise.nil
    | false =>
      cases hrep : (G p.Client (wrapInt (p.MaxVMID + 1))).1.2 with
      | some err =>
        rw [allocRun, nextVmId_err G p hmu err hrep]
        simp only
        rw [allocRun_locked G n _ rfl]
        exact List.Pairwise.nil
      | none =>
        have hfloor := hG _ _ hrep
        have hmin := minInt_le_wrapInt (p.MaxVMID + 1)
        rw [allocRun, nextVmId_ok G p hmu hrep]
        simp only
        refine List.Pairwise.cons ?_ (ih _)
        intro id hid
        exact allocRun_gt G hG n _ (by simp only; omega) (by simp only; exact hfloor.2) id hid

theorem allocRun_length {σ : Type} (G : σ → Int → (Int × Option Error) × σ)
    (hall : ∀ c floor, (G c floor).1.2 = none) :
    ∀ (n : Nat) (p : providerConfiguration σ), p.Mutex = false → (allocRun G n p).length = n := by
  intro n
  induction n with
  | zero => intro p _; rfl
  | succ n ih =>
    intro p hmu
    rw [allocRun, nextVmId_ok G p hmu (hall _ _)]
    simp only [List.length_cons]
    rw [ih]
    exact hmu

/-! ## Claims on the allocator -/

/-- C4 (code defect): when the remote query fails with reply (v, err), a call of
`nextVmId` that starts with the mutex free returns (0, err) and leaves the
watermark MaxVMID equal to v, the value that came with the error, whatever the
watermark m was before. -/
theorem nextVmId_failure_overwrites_watermark {σ : Type} (client : σ) (maxPar curPar m v : Int)
    (err : Error) :
    (nextVmId (fun c _ => ((v, some err), c))
        { Client := client, MaxParallel := maxPar, CurrentParallel := curPar,
          MaxVMID := m, Mutex := false }).map (fun r => (r.1.MaxVMID, r.2))
      = some (v, 0, some err) := by
  simp [nextVmId]

/-- C5 (code defect): a call of `nextVmId` that starts with the mutex free
returns with the mutex free when the remote query succeeds, and returns with
the mutex still held when the remote query fails. -/
theorem nextVmId_failure_keeps_mutex {σ : Type} (client : σ) (maxPar curPar m v : Int)
    (err : Error) :
    (nextVmId (fun c _ => ((v, none), c))
        { Client := client, MaxParallel := maxPar, CurrentParallel := curPar,
          MaxVMID := m, Mutex := false }).map (fun r => (r.1.Mutex, r.2))
      = some (false, v, none) ∧
    (nextVmId (fun c _ => ((v, some err), c))
        { Client := client, MaxParallel := maxPar, CurrentParallel := curPar,
          MaxVMID := m, Mutex := false }).map (fun r => (r.1.Mutex, r.2))
      = some (true, 0, some err) := by
  simp [nextVmId]

/-- C6 (as amended): for every remote that, when it succeeds, returns an id at
or above the floor it was asked for and below maxInt, the ids returned by the
successful calls among any number of consecutive `nextVmId` calls on one session
state are strictly increasing. -/
theorem allocRun_strictly_increasing {σ : Type} (G : σ → Int → (Int × Option Error) × σ)
    (hG : ∀ c floor, (G c floor).1.2 = none →
      floor ≤ (G c floor).1.1 ∧ (G c floor).1.1 < maxInt)
    (n : Nat) (p : providerConfiguration σ) :
    List.Pairwise (· < ·) (allocRun G n p) :=
  allocRun_pairwise G hG n p

/-- C6, witness: a remote that, for a floor below 1000, returns the larger of
the floor and 100, and fails otherwise; three calls from the configured state
return 100, 101, 102. -/
theorem allocRun_strictly_increasing_witness :
    (∀ (c : Unit) (floor : Int),
      ((fun (c : Unit) (floor : Int) =>
          if floor < 1000 then ((max floor 100, (none : Option Error)), c)
          else ((0, some (Error.remote "no free id")), c)) c floor).1.2 = none →
      floor ≤ ((fun (c : Unit) (floor : Int) =>
          if floor < 1000 then ((max floor 100, (none : Option Error)), c)
          else ((0, some (Error.remote "no free id")), c)) c floor).1.1 ∧
      ((fun (c : Unit) (floor : Int) =>
          if floor < 1000 then ((max floor 100, (none : Option Error)), c)
          else ((0, some (Error.remote "no free id")), c)) c floor).1.1 < maxInt) ∧
    allocRun (fun (c : Unit) (floor : Int) =>
          if floor < 1000 then ((max floor 100, (none : Option Error)), c)
          else ((0, some (Error.remote "no free id")), c)) 3
      (configured () 4) = [100, 101, 102] ∧
    List.Pairwise (· < ·)
      (allocRun (fun (c : Unit) (floor : Int) =>
          if floor < 1000 then ((max floor 100, (none : Option Error)), c)
          else ((0, some (Error.remote "no free id")), c)) 3
        (configured () 4)) := by
  have hG : ∀ (c : Unit) (floor : Int),
      ((fun (c : Unit) (floor : Int) =>
          if floor < 1000 then ((max floor 100, (none : Option Error)), c)
          else ((0, some (Error.remote "no free id")), c)) c floor).1.2 = none →
      floor ≤ ((fun (c : Unit) (floor : Int) =>
          if floor < 1000 then ((max floor 100, (none : Option Error)), c)
          else ((0, some (Error.remote "no free id")), c)) c floor).1.1 ∧
      ((fun (c : Unit) (floor : Int) =>
          if floor < 1000 then ((max floor 100, (none : Option Error)), c)
          else ((0, some (Error.remote "no free id")), c)) c floor).1.1 < maxInt := by
    intro c floor h
    by_cases hf : floor < 1000
    · simp only [hf, if_true]
      refine ⟨le_max_left _ _, ?_⟩
      simp only [maxInt]
      omega
    · simp [hf] at h
  exact ⟨hG, by decide, allocRun_strictly_increasing _ hG 3 (configured () 4)⟩

/-- C6, counterexample: a remote that returns maxInt for floor 0 and otherwise
the larger of the floor and 0 always answers at or above the floor; from the
configured state the first call asks with floor 0 and returns maxInt, the second
asks with the wrapped floor minInt and returns 0, so the ids maxInt, 0 are not
increasing. -/
theorem allocRun_not_increasing_at_maxInt :
    (∀ (c : Unit) (floor : Int),
      floor ≤ ((fun (c : Unit) (floor : Int) =>
          ((if floor = 0 then 9223372036854775807 else max floor 0, (none : Option Error)), c))
        c floor).1.1) ∧
    allocRun (fun (c : Unit) (floor : Int) =>
          ((if floor = 0 then 9223372036854775807 else max floor 0, (none : Option Error)), c)) 2
      (configured () 4) = [9223372036854775807, 0] ∧
    ¬ List.Pairwise (· < ·)
      (allocRun (fun (c : Unit) (floor : Int) =>
          ((if floor = 0 then 9223372036854775807 else max floor 0, (none : Option Error)), c)) 2
        (configured () 4)) := by
  have hrun : allocRun (fun (c : Unit) (floor : Int) =>
          ((if floor = 0 then 9223372036854775807 else max floor 0, (none : Option Error)), c)) 2
      (configured () 4) = [9223372036854775807, 0] := by decide
  refine ⟨?_, hrun, ?_⟩
  · intro c floor
    by_cases hf : floor = 0
    · simp [hf]
    · simp only [hf, if_false]
      exact le_max_left _ _
  · rw [hrun]
    decide

/-- C9 (as amended): a call of `nextVmId` on a state with the mutex free and a
watermark m with minInt ≤ m < maxInt asks the remote with floor m + 1 and, when
the remote succeeds with id r, returns r and leaves the watermark equal to r; a
recording remote sees exactly one more query, with floor m + 1; and the state
built by `providerConfigure` has watermark -1 with the mutex free. -/
theorem nextVmId_step {σ : Type} (G : σ → Int → (Int × Option Error) × σ)
    (p : providerConfiguration σ) (r : Int) (c' : σ)
    (hfree : p.Mutex = false) (hlo : minInt ≤ p.MaxVMID) (hhi : p.MaxVMID < maxInt)
    (hok : G p.Client (p.MaxVMID + 1) = ((r, none), c')) :
    nextVmId G p = some ({ p with Client := c', MaxVMID := r }, r, none) ∧
    (∀ (reply : Int → Int × Option Error) (q : providerConfiguration (List Int)),
      q.Mutex = false → minInt ≤ q.MaxVMID → q.MaxVMID < maxInt →
      ∃ q' res, nextVmId (recorder reply) q = some (q', res) ∧
        q'.Client = q.Client ++ [q.MaxVMID + 1]) ∧
    (∀ (client : σ) (n : Int),
      providerConfigure (Except.ok client) n = Except.ok (configured client n) ∧
      (configured client n).MaxVMID = -1 ∧ (configured client n).Mutex = false) := by
  refine ⟨?_, ?_, ?_⟩
  · have hfl : wrapInt (p.MaxVMID + 1) = p.MaxVMID + 1 :=
      wrapInt_of_range _ (by omega) (by omega)
    have h := nextVmId_ok G p hfree (by rw [hfl, hok])
    rw [hfl, hok] at h
    exact h
  · intro reply q hq hqlo hqhi
    have hfl : wrapInt (q.MaxVMID + 1) = q.MaxVMID + 1 :=
      wrapInt_of_range _ (by omega) (by omega)
    cases hrep : (reply (q.MaxVMID + 1)).2 with
    | none =>
      exact ⟨_, _, nextVmId_ok (recorder reply) q hq (by simpa [recorder, hfl] using hrep),
        by simp [recorder, hfl]⟩
    | some err =>
      exact ⟨_, _, nextVmId_err (recorder reply) q hq err (by simpa [recorder, hfl] using hrep),
        by simp [recorder, hfl]⟩
  · intro client n
    exact ⟨rfl, rfl, rfl⟩

/-- C9, witness: from the configured state the first query uses floor 0; the
remote returns 100, the watermark becomes 100, and the next query uses floor
101. -/
theorem nextVmId_step_witness :
    (configured ([] : List Int) 4).Mutex = false ∧
    minInt ≤ (configured ([] : List Int) 4).MaxVMID ∧
    (configured ([] : List Int) 4).MaxVMID < maxInt ∧
    recorder (fun floor => if floor = 0 then (100, none) else (floor, none))
      (configured ([] : List Int) 4).Client ((configured ([] : List Int) 4).MaxVMID + 1)
      = ((100, none), [0]) ∧
    nextVmId (recorder (fun floor => if floor = 0 then (100, none) else (floor, none)))
      (configured ([] : List Int) 4)
      = some ({ configured ([] : List Int) 4 with Client := [0], MaxVMID := 100 }, 100, none) ∧
    nextVmId (recorder (fun floor => if floor = 0 then (100, none) else (floor, none)))
      { configured ([] : List Int) 4 with Client := [0], MaxVMID := 100 }
      = some ({ configured ([] : List Int) 4 with Client := [0, 101], MaxVMID := 101 }, 101, none) :=
  ⟨rfl, by decide, by decide, by decide,
   (nextVmId_step (recorder (fun floor => if floor = 0 then (100, none) else (floor, none)))
      (configured ([] : List Int) 4) 100 [0] rfl (by decide) (by decide) (by decide)).1,
   by decide⟩

/-- C9, counterexample: on a state with watermark maxInt the sum wraps and the
one query made carries floor minInt = -9223372036854775808, not maxInt + 1. -/
theorem nextVmId_floor_wraps_at_maxInt :
    nextVmId (recorder (fun floor => (floor, none)))
      (providerConfiguration.mk ([] : List Int) 4 0 9223372036854775807 false)
      = some (providerConfiguration.mk [-9223372036854775808] 4 0 (-9223372036854775808) false,
          -9223372036854775808, none) ∧
    (-9223372036854775808 : Int) ≠ 9223372036854775807 + 1 := by
  decide

/-! ## The gate -/

theorem pmParallelBegin_eq {σ : Type} (p : providerConfiguration σ) (hfree : p.Mutex = false) :
    pmParallelBegin p =
      if p.CurrentParallel < p.MaxParallel
      then some { p with CurrentParallel := p.CurrentParallel + 1 } else none := by
  by_cases h : p.CurrentParallel < p.MaxParallel
  · simp [pmParallelBegin, hfree, h]
  · simp [pmParallelBegin, hfree, h, not_lt.mp h]

theorem pmParallelEnd_eq {σ : Type} (p : providerConfiguration σ) (hfree : p.Mutex = false) :
    pmParallelEnd p = some { p with CurrentParallel := p.CurrentParallel - 1 } := by
  simp [pmParallelEnd, hfree]

theorem runGate_append {σ : Type} (a b : List GateOp) :
    ∀ p : providerConfiguration σ,
      runGate p (a ++ b) = (runGate p a).bind (fun s => runGate s b) := by
  induction a with
  | nil => intro p; rfl
  | cons op a ih =>
    intro p
    cases h : gateStep p op with
    | none => simp [runGate, h]
    | some p' => simp [runGate, h, ih p']

theorem runGate_begins {σ : Type} :
    ∀ (k : Nat) (p : providerConfiguration σ), p.Mutex = false →
      p.CurrentParallel + k ≤ p.MaxParallel →
      runGate p (List.replicate k GateOp.parallelBegin)
        = some { p with CurrentParallel := p.CurrentParallel + k } := by
  intro k
  induction k with
  | zero => intro p _ _; simp [runGate]
  | succ k ih =>
    intro p hfree hle
    obtain ⟨c, mp, cp, m, mu⟩ := p
    simp only at hfree hle
    subst hfree
    have hlt : ¬ cp ≥ mp := by push_cast at hle; omega
    have hstep : gateStep (providerConfiguration.mk c mp cp m false) GateOp.parallelBegin
        = some (providerConfiguration.mk c mp (cp + 1) m false) := by
      simp [gateStep, pmParallelBegin, hlt]
    rw [List.replicate_succ, runGate, hstep]
    simp only
    rw [ih (providerConfiguration.mk c mp (cp + 1) m false) rfl
      (by show cp + 1 + (k : Int) ≤ mp; push_cast at hle; omega)]
    simp only [Option.some.injEq, providerConfiguration.mk.injEq, true_and, and_true]
    push_cast
    ring

theorem runGate_invariant {σ : Type} :
    ∀ (ops : List GateOp) (p s : providerConfiguration σ) (pending : Nat),
      p.Mutex = false → p.CurrentParallel = pending → p.CurrentParallel ≤ p.MaxParallel →
      matched pending ops = true → runGate p ops = some s →
      0 ≤ s.CurrentParallel ∧ s.CurrentParallel ≤ s.MaxParallel ∧
        s.MaxParallel = p.MaxParallel ∧ s.Mutex = false := by
  intro ops
  induction ops with
  | nil =>
    intro p s pending hfree hcur hle _ hrun
    simp only [runGate, Option.some.injEq] at hrun
    subst hrun
    exact ⟨by omega, hle, rfl, hfree⟩
  | cons op ops ih =>
    intro p s pending hfree hcur hle hm hrun
    obtain ⟨c, mp, cp, m, mu⟩ := p
    simp only at hfree hcur hle
    subst hfree
    cases op with
    | parallelBegin =>
      by_cases hlt : cp ≥ mp
      · have hstep : gateStep (providerConfiguration.mk c mp cp m false) GateOp.parallelBegin
            = none := by
          simp [gateStep, pmParallelBegin, hlt]
        rw [runGate, hstep] at hrun
        simp at hrun
      · have hstep : gateStep (providerConfiguration.mk c mp cp m false) GateOp.parallelBegin
            = some (providerConfiguration.mk c mp (cp + 1) m false) := by
          simp [gateStep, pmParallelBegin, hlt]
        rw [runGate, hstep] at hrun
        simp only at hrun
        exact ih (providerConfiguration.mk c mp (cp + 1) m false) s (pending + 1) rfl
          (by show cp + 1 = ((pending + 1 : Nat) : Int); push_cast; omega)
          (by show cp + 1 ≤ mp; omega)
          (by simpa [matched] using hm) hrun
    | parallelEnd =>
      cases pending with
      | zero => simp [matched] at hm
      | succ pending =>
        have hstep : gateStep (providerConfiguration.mk c mp cp m false) GateOp.parallelEnd
            = some (providerConfiguration.mk c mp (cp - 1) m false) := by
          simp [gateStep, pmParallelEnd]
        rw [runGate, hstep] at hrun
        simp only at hrun
        exact ih (providerConfiguration.mk c mp (cp - 1) m false) s pending rfl
          (by show cp - 1 = (pending : Int); push_cast at hcur; omega)
          (by show cp - 1 ≤ mp; omega)
          (by simpa [matched] using hm) hrun

/-! ## Claims on the gate -/

/-- C7: from the configured state (CurrentParallel = 0, MaxParallel = N ≥ 1),
after every sequence of completed `pmParallelBegin` and `pmParallelEnd` calls in
which each end is preceded by its own begin (a begin completes only when it is
admitted), the state satisfies 0 ≤ CurrentParallel ≤ MaxParallel. -/
theorem gate_capacity_invariant {σ : Type} (client : σ) (N : Int) (hN : 1 ≤ N)
    (ops : List GateOp) (s : providerConfiguration σ)
    (hmatched : matched 0 ops = true) (hrun : runGate (configured client N) ops = some s) :
    0 ≤ s.CurrentParallel ∧ s.CurrentParallel ≤ s.MaxParallel := by
  have h := runGate_invariant ops (configured client N) s 0 rfl rfl
    (by simp only [configured]; omega) hmatched hrun
  exact ⟨h.1, h.2.1⟩

/-- C7, witness: with N = 2, after begin, begin, end, begin the count is 2. -/
theorem gate_capacity_invariant_witness :
    (1 : Int) ≤ 2 ∧
    matched 0 [GateOp.parallelBegin, GateOp.parallelBegin, GateOp.parallelEnd,
      GateOp.parallelBegin] = true ∧
    runGate (configured () 2) [GateOp.parallelBegin, GateOp.parallelBegin, GateOp.parallelEnd,
      GateOp.parallelBegin] = some (providerConfiguration.mk () 2 2 (-1) false) ∧
    (0 : Int) ≤ 2 ∧ (2 : Int) ≤ 2 :=
  ⟨by decide, by decide, by decide,
   gate_capacity_invariant () 2 (by decide)
     [GateOp.parallelBegin, GateOp.parallelBegin, GateOp.parallelEnd, GateOp.parallelBegin]
     (providerConfiguration.mk () 2 2 (-1) false) (by decide) (by decide)⟩

/-- C8: with the mutex free, `pmParallelBegin` completes exactly when
CurrentParallel < MaxParallel, and then it adds one to CurrentParallel and
changes nothing else; from the configured state with MaxParallel = N ≥ 1 every
k ≤ N begins in a row complete (the count is then k), N + 1 begins in a row do
not, and after N begins and one `pmParallelEnd` a further begin completes. -/
theorem gate_admission {σ : Type} (client : σ) (N : Nat) (_hN : 1 ≤ N) :
    (∀ p : providerConfiguration σ, p.Mutex = false →
      ((pmParallelBegin p).isSome = true ↔ p.CurrentParallel < p.MaxParallel) ∧
      ∀ p', pmParallelBegin p = some p' →
        p' = providerConfiguration.mk p.Client p.MaxParallel (p.CurrentParallel + 1)
          p.MaxVMID p.Mutex) ∧
    (∀ k : Nat, k ≤ N →
      runGate (configured client (N : Int)) (List.replicate k GateOp.parallelBegin)
        = some (providerConfiguration.mk client N k (-1) false)) ∧
    runGate (configured client (N : Int)) (List.replicate (N + 1) GateOp.parallelBegin) = none ∧
    pmParallelBegin (providerConfiguration.mk client N N (-1) false) = none ∧
    runGate (configured client (N : Int))
        (List.replicate N GateOp.parallelBegin ++ [GateOp.parallelEnd, GateOp.parallelBegin])
      = some (providerConfiguration.mk client N N (-1) false) := by
  have hbegins : ∀ k : Nat, k ≤ N →
      runGate (configured client (N : Int)) (List.replicate k GateOp.parallelBegin)
        = some (providerConfiguration.mk client N k (-1) false) := by
    intro k hk
    have h := runGate_begins k (configured client (N : Int)) rfl
      (by simp only [configured]; omega)
    rw [h]
    simp [configured]
  have hfull : pmParallelBegin (providerConfiguration.mk client (N : Int) N (-1) false)
      = none := by
    simp [pmParallelBegin]
  refine ⟨?_, hbegins, ?_, hfull, ?_⟩
  · intro p hfree
    rw [pmParallelBegin_eq p hfree]
    by_cases hlt : p.CurrentParallel < p.MaxParallel
    · simp only [hlt, if_true, Option.isSome_some, true_iff]
      exact ⟨trivial, fun p' h => (Option.some.inj h).symm⟩
    · simp [hlt]
  · have hsplit : List.replicate (N + 1) GateOp.parallelBegin
        = List.replicate N GateOp.parallelBegin ++ [GateOp.parallelBegin] := by
      rw [List.replicate_succ']
    rw [hsplit, runGate_append, hbegins N le_rfl]
    simp only [Option.some_bind, runGate, gateStep, hfull]
  · rw [runGate_append, hbegins N le_rfl]
    simp only [Option.some_bind, runGate, gateStep]
    simp [pmParallelEnd, pmParallelBegin]

/-- C8, witness: N = 2; two begins complete, the third does not, and after one
end it does. -/
theorem gate_admission_witness :
    1 ≤ 2 ∧
    runGate (configured () 2) [GateOp.parallelBegin, GateOp.parallelBegin]
      = some (providerConfiguration.mk () 2 2 (-1) false) ∧
    runGate (configured () 2)
      [GateOp.parallelBegin, GateOp.parallelBegin, GateOp.parallelBegin] = none ∧
    runGate (configured () 2)
      [GateOp.parallelBegin, GateOp.parallelBegin, GateOp.parallelEnd, GateOp.parallelBegin]
      = some (providerConfiguration.mk () 2 2 (-1) false) :=
  ⟨by decide, (gate_admission () 2 (by decide)).2.1 2 (by decide),
   (gate_admission () 2 (by decide)).2.2.1, (gate_admission () 2 (by decide)).2.2.2.2⟩

end Proxmox
